import Mathlib

/-!
Shallow embedding of the per-slave power-state reconciliation engine of
`src/lib/sw_apps/zynqmp_pmufw/src/pm_slave.c` (zynqmp_pmufw), together with
proofs of the specified properties.

Modelling conventions:
* `u32` values are `Nat`; the only place where 32-bit wrap-around can matter
  (the `minLat - wkupLat` subtraction in `PmUpdateSlave`) is modelled
  explicitly with `u32sub`.
* The two flag bits of `PmRequirement.info` that this file reads
  (`PM_MASTER_USING_SLAVE_MASK`, `PM_MASTER_SET_LATENCY_REQ`) are modelled as
  the Bool fields `usingSlave` and `setLatencyReq`.
* Pointers to external collaborators (`PmPowerRequestParent`, `PmClockRequest`,
  the FSM `enterState` action, ...) are modelled by an environment `PmEnv`
  giving each call's status, and the calls a run performs are recorded in an
  `Effect` trace.
-/

namespace PmSlaveC

/-- `XST_SUCCESS` of xstatus.h. -/
def XST_SUCCESS : Nat := 0

/-- `XST_FAILURE` of xstatus.h. -/
def XST_FAILURE : Nat := 1

/-- `XST_NO_FEATURE` of xstatus.h. -/
def XST_NO_FEATURE : Nat := 19

/-- `XST_PM_CONFLICT` of pm_defs.h. -/
def XST_PM_CONFLICT : Nat := 2001

/-- `PM_CAP_POWER` of pm_defs.h. -/
def PM_CAP_POWER : Nat := 8

/-- `PM_CAP_CLOCK` of pm_defs.h. -/
def PM_CAP_CLOCK : Nat := 16

/-- `PM_SLAVE_FLAG_IS_SHAREABLE` of pm_slave.h. -/
def PM_SLAVE_FLAG_IS_SHAREABLE : Nat := 1

/-- `MAX_LATENCY` of pm_common.h: `~0U`. -/
def MAX_LATENCY : Nat := 2 ^ 32 - 1

/-- 32-bit unsigned subtraction `a - b` with wrap-around, for `a b < 2^32`. -/
def u32sub (a b : Nat) : Nat := (a + (2 ^ 32 - b % 2 ^ 32)) % 2 ^ 32

/-- One entry of the `PmSlaveFsm.trans` table (struct `PmStateTran`). -/
structure PmTrans where
  fromState : Nat
  toState : Nat
  latency : Nat
deriving DecidableEq, Repr

/-- The FSM of a slave (struct `PmSlaveFsm`): the per-state capability masks
(`states`, indexed by state id, `statesCnt = states.length`), the transition
table (`trans`, `transCnt = trans.length`) and whether the FSM carries an
`enterState` action pointer. -/
structure PmSlaveFsm where
  states : List Nat
  trans : List PmTrans
  hasEnterState : Bool
deriving DecidableEq, Repr

/-- One requirement-ledger entry (struct `PmRequirement`), restricted to the
fields pm_slave.c reads: `usingSlave` models bit `PM_MASTER_USING_SLAVE_MASK`
of `info`, `setLatencyReq` models bit `PM_MASTER_SET_LATENCY_REQ` of `info`,
`currReq` and `latencyReq` are the granted capabilities and latency bound, and
`masterIpiMask` is `req->master->ipiMask`. -/
structure PmRequirement where
  usingSlave : Bool
  setLatencyReq : Bool
  currReq : Nat
  latencyReq : Nat
  masterIpiMask : Nat
deriving DecidableEq, Repr

/-- A slave (struct `PmSlave`), restricted to what pm_slave.c touches:
`currState` is `node.currState`, `reqs` the requirement list, `hasParent`
and `hasClocks` model `NULL != node.parent` / `NULL != node.clocks`,
`flags` the slave flag word and `latencyMarg` is `node.latencyMarg`. -/
structure PmSlave where
  fsm : PmSlaveFsm
  currState : Nat
  reqs : List PmRequirement
  hasParent : Bool
  hasClocks : Bool
  flags : Nat
  latencyMarg : Nat
deriving DecidableEq, Repr

/-- External calls a run of the engine can perform, with the outcome of the
acquisition calls (`true` iff the call returned `XST_SUCCESS`, i.e. actually
acquired). -/
inductive Effect where
  | requestParent (ok : Bool)
  | requestClock (ok : Bool)
  | releaseClock
  | releaseParent
deriving DecidableEq, Repr

/-- Environment of external collaborators: the status each call returns.
`hasMasterWithIpiMask` models `PmGetMasterByIpiMask` (whether the mask
resolves), `parentGetWakeUpLatency` models the power parent's
`getWakeUpLatency` method: `none` for a `NULL` method pointer, `some (st, v)`
for a method returning status `st` and writing `v`. -/
structure PmEnv where
  powerRequestParentStatus : Nat
  clockRequestStatus : Nat
  enterStateStatus : Nat → Nat
  powerUpdateLatencyStatus : Nat
  hasMasterWithIpiMask : Nat → Bool
  parentGetWakeUpLatency : Option (Nat × Nat)

/-- Capability mask of state `i` of `fsm` (`slvFsm->states[i]`; the C code
only indexes in bounds, out-of-range defaults to 0). -/
def stateCaps (fsm : PmSlaveFsm) (i : Nat) : Nat := fsm.states.getD i 0

/-- `PmGetMaxCapabilities`: OR of `currReq` over all requirements whose
`PM_MASTER_USING_SLAVE_MASK` flag is set. -/
def PmGetMaxCapabilities (slave : PmSlave) : Nat :=
  slave.reqs.foldl (fun maxCaps r => if r.usingSlave then maxCaps ||| r.currReq else maxCaps) 0

/-- Index of the first element of `l` whose mask is a superset of `caps`
(the scan shared by `PmCheckCapabilities` and `PmGetStateWithCaps`). -/
def findCapIdx (caps : Nat) : List Nat → Option Nat
  | [] => none
  | s :: rest =>
      if caps &&& s = caps then some 0
      else (findCapIdx caps rest).map (fun i => i + 1)

/-- `PmGetStateWithCaps`: scan states in ascending index order for the first
one containing all of `caps`; `some i` models `XST_SUCCESS` with `*state = i`,
`none` models `XST_PM_CONFLICT` (no write to `*state`). -/
def PmGetStateWithCaps (fsm : PmSlaveFsm) (caps : Nat) : Option Nat :=
  findCapIdx caps fsm.states

/-- `PmGetMinRequestedLatency`: minimum of `latencyReq` over requirements with
the `PM_MASTER_SET_LATENCY_REQ` flag, starting from `MAX_LATENCY`. -/
def PmGetMinRequestedLatency (slave : PmSlave) : Nat :=
  slave.reqs.foldl
    (fun minLatency r =>
      if r.setLatencyReq then
        if r.latencyReq < minLatency then r.latencyReq else minLatency
      else minLatency)
    MAX_LATENCY

/-- `PmGetLatencyFromState`: latency of the first transition from `state` to
the highest-index state (`statesCnt - 1`), or 0 when there is none. -/
def PmGetLatencyFromState (fsm : PmSlaveFsm) (state : Nat) : Nat :=
  let highestState := fsm.states.length - 1
  match fsm.trans.find? (fun t => t.fromState == state && t.toState == highestState) with
  | some t => t.latency
  | none => 0

/-- The loop body condition of `PmConstrainStateByLatency`: state `i` has all
of `caps` and its wake latency does not exceed `minLatency`. -/
def constrainOk (fsm : PmSlaveFsm) (caps minLatency i : Nat) : Prop :=
  caps &&& stateCaps fsm i = caps ∧ PmGetLatencyFromState fsm i ≤ minLatency

instance (fsm : PmSlaveFsm) (caps minLatency i : Nat) :
    Decidable (constrainOk fsm caps minLatency i) := by
  unfold constrainOk; infer_instance

/-- The scan loop of `PmConstrainStateByLatency`, starting at index `i` with
`fuel` iterations remaining (`fuel = statesCnt - i` at entry, so the loop
visits exactly the indices `i, i+1, ..., statesCnt - 1`). -/
def constrainScan (fsm : PmSlaveFsm) (caps minLatency : Nat) : Nat → Nat → Option Nat
  | 0, _ => none
  | fuel + 1, i =>
      if constrainOk fsm caps minLatency i then some i
      else constrainScan fsm caps minLatency fuel (i + 1)

/-- `PmConstrainStateByLatency`: scan states from `startState` upward for the
first one with all of `capsToSet` whose wake latency is within `minLatency`;
`some i` models `XST_SUCCESS` with `*state = i`, `none` models
`XST_PM_CONFLICT`. -/
def PmConstrainStateByLatency (fsm : PmSlaveFsm) (startState capsToSet minLatency : Nat) :
    Option Nat :=
  constrainScan fsm capsToSet minLatency (fsm.states.length - startState) startState

/-- `PmSlavePrepareState`: before entering state `next`, request the power
parent when the slave has one and `next` newly needs `PM_CAP_POWER`
(propagating a failure immediately), then request the clock when the slave has
clocks and `next` newly needs `PM_CAP_CLOCK` (its status is the result).
Returns the status and the trace of acquisition calls made. -/
def PmSlavePrepareState (env : PmEnv) (slv : PmSlave) (next : Nat) : Nat × List Effect :=
  let curr := slv.currState
  let needPower := slv.hasParent &&
    (stateCaps slv.fsm curr &&& PM_CAP_POWER == 0) &&
    (stateCaps slv.fsm next &&& PM_CAP_POWER != 0)
  let needClock := slv.hasClocks &&
    (stateCaps slv.fsm curr &&& PM_CAP_CLOCK == 0) &&
    (stateCaps slv.fsm next &&& PM_CAP_CLOCK != 0)
  if needPower then
    if env.powerRequestParentStatus != XST_SUCCESS then
      (env.powerRequestParentStatus, [Effect.requestParent false])
    else if needClock then
      if env.clockRequestStatus != XST_SUCCESS then
        (env.clockRequestStatus, [Effect.requestParent true, Effect.requestClock false])
      else
        (XST_SUCCESS, [Effect.requestParent true, Effect.requestClock true])
    else
      (XST_SUCCESS, [Effect.requestParent true])
  else if needClock then
    if env.clockRequestStatus != XST_SUCCESS then
      (env.clockRequestStatus, [Effect.requestClock false])
    else
      (XST_SUCCESS, [Effect.requestClock true])
  else
    (XST_SUCCESS, [])

/-- `PmSlaveClearAfterState`: after the state actually changed away from
`prev`, release the clock when `prev` had `PM_CAP_CLOCK` and the new current
state does not, then release the power parent symmetrically. Returns the
trace of release calls made. -/
def PmSlaveClearAfterState (slv : PmSlave) (prev : Nat) : List Effect :=
  let curr := slv.currState
  let relClock := slv.hasClocks &&
    (stateCaps slv.fsm prev &&& PM_CAP_CLOCK != 0) &&
    (stateCaps slv.fsm curr &&& PM_CAP_CLOCK == 0)
  let relPower := slv.hasParent &&
    (stateCaps slv.fsm prev &&& PM_CAP_POWER != 0) &&
    (stateCaps slv.fsm curr &&& PM_CAP_POWER == 0)
  (if relClock then [Effect.releaseClock] else []) ++
    (if relPower then [Effect.releaseParent] else [])

/-- The transition-table search of `PmSlaveChangeState`: the first entry whose
`fromState`/`toState` match the current and target state. -/
def findTrans (fsm : PmSlaveFsm) (fromS toS : Nat) : Option PmTrans :=
  fsm.trans.find? (fun t => t.fromState == fromS && t.toState == toS)

/-- `PmSlaveChangeState`: prepare (aborting on failure), then apply — trivial
success when the FSM has no transitions, otherwise the first matching
`currState → state` entry runs the `enterState` action (or succeeds when the
FSM has none), and no matching entry is `XST_FAILURE`; finally, only when the
state differs and the apply succeeded, update `currState` (the
`PmNodeUpdateCurrState` call) and run the settle releases. Returns the
status, the updated slave and the trace. -/
def PmSlaveChangeState (env : PmEnv) (slave : PmSlave) (state : Nat) :
    Nat × PmSlave × List Effect :=
  let oldState := slave.currState
  let prep := PmSlavePrepareState env slave state
  if prep.1 != XST_SUCCESS then
    (prep.1, slave, prep.2)
  else
    let status :=
      if slave.fsm.trans.length = 0 then XST_SUCCESS
      else
        match findTrans slave.fsm oldState state with
        | some _ => if slave.fsm.hasEnterState then env.enterStateStatus state else XST_SUCCESS
        | none => XST_FAILURE
    if oldState != state && status == XST_SUCCESS then
      let slave1 := { slave with currState := state }
      (status, slave1, prep.2 ++ PmSlaveClearAfterState slave1 oldState)
    else
      (status, slave, prep.2)

/-- The state-resolution part of `PmUpdateSlave` (its code up to the
`latencyMarg` assignment): `none` when that code exits with
`XST_PM_CONFLICT` (state scan or latency constraint failed), otherwise
`some (state, wkupLat, minLat)` — the resolved state and the values the
`latencyMarg` assignment reads. -/
def PmResolveState (slave : PmSlave) : Option (Nat × Nat × Nat) :=
  let caps := PmGetMaxCapabilities slave
  let st0? := if caps ≠ 0 then PmGetStateWithCaps slave.fsm caps else some 0
  match st0? with
  | none => none
  | some st0 =>
      let minLat := PmGetMinRequestedLatency slave
      let wkupLat := PmGetLatencyFromState slave.fsm st0
      if wkupLat > minLat then
        match PmConstrainStateByLatency slave.fsm st0 caps minLat with
        | none => none
        | some st1 => some (st1, PmGetLatencyFromState slave.fsm st1, minLat)
      else
        some (st0, wkupLat, minLat)

/-- `PmUpdateSlave`: resolve the state from the aggregated capabilities and
latency bound (conflict aborts), record `latencyMarg = minLat - wkupLat`
(32-bit subtraction), then either change the state when it differs from the
current one, or — when unchanged and the state lacks `PM_CAP_POWER`
(`!HAS_CAPABILITIES(slave, state, PM_CAP_POWER)`) — notify the power parent
via `PmPowerUpdateLatencyReq`. -/
def PmUpdateSlave (env : PmEnv) (slave : PmSlave) : Nat × PmSlave × List Effect :=
  match PmResolveState slave with
  | none => (XST_PM_CONFLICT, slave, [])
  | some (state, wkupLat, minLat) =>
      let slave1 := { slave with latencyMarg := u32sub minLat wkupLat }
      if state != slave1.currState then
        PmSlaveChangeState env slave1 state
      else if PM_CAP_POWER &&& stateCaps slave1.fsm state != PM_CAP_POWER then
        (env.powerUpdateLatencyStatus, slave1, [])
      else
        (XST_SUCCESS, slave1, [])

/-- `PmSlaveGetUsersMask`: OR of `master->ipiMask` over all requirements whose
`PM_MASTER_USING_SLAVE_MASK` flag is set. -/
def PmSlaveGetUsersMask (slave : PmSlave) : Nat :=
  slave.reqs.foldl (fun usage r => if r.usingSlave then usage ||| r.masterIpiMask else usage) 0

/-- Modelled from the spec: `PmRequirementClear` (pm_requirement.c, which is
not under src/) marks a ledger entry inactive — it clears the usage flag and
zeroes the entry's granted capability and latency contribution, without
deallocating the entry. -/
def PmRequirementClear (r : PmRequirement) : PmRequirement :=
  { r with usingSlave := false, setLatencyReq := false, currReq := 0, latencyReq := 0 }

/-- `PmSlaveForceDown`: clear every requirement whose
`PM_MASTER_USING_SLAVE_MASK` flag is set, then, when the current state is not
0, change the state to 0 and return that status (`XST_SUCCESS` otherwise). -/
def PmSlaveForceDown (env : PmEnv) (slave : PmSlave) : Nat × PmSlave × List Effect :=
  let slave1 :=
    { slave with reqs := slave.reqs.map (fun r => if r.usingSlave then PmRequirementClear r else r) }
  if slave1.currState ≠ 0 then PmSlaveChangeState env slave1 0
  else (XST_SUCCESS, slave1, [])

/-- Trailing-zero count of a `u32` (`__builtin_ctz`); fuel-bounded at 32 bits.
For `n = 0` the C builtin is undefined (the caller never passes 0). -/
def ctz32Aux : Nat → Nat → Nat
  | 0, _ => 0
  | fuel + 1, n => if n % 2 = 1 then 0 else ctz32Aux fuel (n / 2) + 1

/-- `__builtin_ctz` on a 32-bit value. -/
def ctz32 (n : Nat) : Nat := ctz32Aux 32 n

/-- Population count of a `u32` (`__builtin_popcount`); fuel-bounded at 32
bits. -/
def popcount32Aux : Nat → Nat → Nat
  | 0, _ => 0
  | fuel + 1, n => n % 2 + popcount32Aux fuel (n / 2)

/-- `__builtin_popcount` on a 32-bit value. -/
def popcount32 (n : Nat) : Nat := popcount32Aux 32 n

/-- Modelled from the spec: `PmRequirementAdd` (pm_requirement.c, which is not
under src/) creates — or reuses, when the master is already bound — the
requirement-ledger binding of the master with the given ipi mask to the
slave. The new entry starts inactive. (The C code links the entry into
intrusive lists; the position in `reqs` carries no meaning.) -/
def PmRequirementAdd (slave : PmSlave) (ipiMask : Nat) : PmSlave :=
  if slave.reqs.any (fun r => r.masterIpiMask == ipiMask) then slave
  else
    { slave with
      reqs := slave.reqs ++
        [{ usingSlave := false, setLatencyReq := false, currReq := 0, latencyReq := 0,
           masterIpiMask := ipiMask }] }

/-- The master-binding loop of `PmSlaveSetConfig`: `cnt` iterations; each
extracts the lowest set bit of `masks` as the ipi mask, fails with
`XST_FAILURE` when no master has that mask (`PmGetMasterByIpiMask` returned
`NULL`), otherwise adds the requirement and clears the bit
(`masks &= ~ipiMask`, i.e. `masks - ipiMask` for the lowest set bit). -/
def setConfigLoop (env : PmEnv) : Nat → PmSlave → Nat → Nat × PmSlave
  | 0, slave, _ => (XST_SUCCESS, slave)
  | cnt + 1, slave, masks =>
      let ipiMask := 2 ^ ctz32 masks
      if env.hasMasterWithIpiMask ipiMask then
        setConfigLoop env cnt (PmRequirementAdd slave ipiMask) (masks - ipiMask)
      else
        (XST_FAILURE, slave)

/-- `PmSlaveSetConfig`: set the shareable flag when `policy` carries it, then
bind one master per set bit of `perms` (`masterCnt = popcount(perms)`),
propagating the first failure. -/
def PmSlaveSetConfig (env : PmEnv) (slave : PmSlave) (policy perms : Nat) : Nat × PmSlave :=
  let slave1 :=
    if policy &&& PM_SLAVE_FLAG_IS_SHAREABLE ≠ 0 then
      { slave with flags := slave.flags ||| PM_SLAVE_FLAG_IS_SHAREABLE }
    else slave
  setConfigLoop env (popcount32 perms) slave1 perms

/-- `PmSlaveGetWakeUpLatency`: write the slave's own latency-from-current-state
to `*lat` first; then, when the power parent's class has no `getWakeUpLatency`
method, return `XST_NO_FEATURE` (leaving `*lat` overwritten); otherwise call
the method and, only on its success, add its latency to `*lat` (32-bit add).
Returns `(status, final value of *lat)`. -/
def PmSlaveGetWakeUpLatency (env : PmEnv) (slave : PmSlave) : Nat × Nat :=
  let lat0 := PmGetLatencyFromState slave.fsm slave.currState
  match env.parentGetWakeUpLatency with
  | none => (XST_NO_FEATURE, lat0)
  | some (st, latency) =>
      if st = XST_SUCCESS then (st, (lat0 + latency) % 2 ^ 32) else (st, lat0)

/-! Section: Characterization of the capability scan (`PmGetStateWithCaps`) -/

theorem findCapIdx_some_iff (caps : Nat) (l : List Nat) (i : Nat) :
    findCapIdx caps l = some i ↔
      i < l.length ∧ caps &&& l.getD i 0 = caps ∧ ∀ j, j < i → caps &&& l.getD j 0 ≠ caps := by
  induction l generalizing i with
  | nil => simp [findCapIdx]
  | cons s rest ih =>
      by_cases h : caps &&& s = caps
      · simp only [findCapIdx, if_pos h]
        constructor
        · intro hsome
          have hi : i = 0 := by
            have := Option.some.inj hsome
            omega
          subst hi
          exact ⟨by simp, by simpa using h, by omega⟩
        · rintro ⟨hlen, hcond, hmin⟩
          cases i with
          | zero => rfl
          | succ k => exact absurd h (hmin 0 (Nat.succ_pos k))
      · simp only [findCapIdx, if_neg h]
        cases i with
        | zero =>
            constructor
            · intro hsome
              rcases Option.map_eq_some'.mp hsome with ⟨a, _, hak⟩
              omega
            · rintro ⟨_, hcond, _⟩
              exact absurd (by simpa using hcond) h
        | succ k =>
            have hmap : ((findCapIdx caps rest).map (fun i => i + 1) = some (k + 1)) ↔
                findCapIdx caps rest = some k := by
              constructor
              · intro hm
                rcases Option.map_eq_some'.mp hm with ⟨a, ha, hak⟩
                have : a = k := by omega
                rwa [this] at ha
              · intro hm
                rw [hm]
                rfl
            rw [hmap, ih]
            constructor
            · rintro ⟨hlen, hcond, hmin⟩
              refine ⟨by simpa using hlen, by simpa using hcond, ?_⟩
              intro j hj
              cases j with
              | zero => simpa using h
              | succ j' => simpa using hmin j' (by omega)
            · rintro ⟨hlen, hcond, hmin⟩
              refine ⟨by simpa using hlen, by simpa using hcond, ?_⟩
              intro j hj
              simpa using hmin (j + 1) (by omega)

theorem findCapIdx_none_iff (caps : Nat) (l : List Nat) :
    findCapIdx caps l = none ↔ ∀ j, j < l.length → caps &&& l.getD j 0 ≠ caps := by
  induction l with
  | nil => simp [findCapIdx]
  | cons s rest ih =>
      by_cases h : caps &&& s = caps
      · simp only [findCapIdx, if_pos h]
        constructor
        · intro hc
          exact absurd hc (by simp)
        · intro hall
          exact absurd h (by simpa using hall 0 (by simp))
      · simp only [findCapIdx, if_neg h, Option.map_eq_none']
        rw [ih]
        constructor
        · intro hall j hj
          cases j with
          | zero => simpa using h
          | succ j' => simpa using hall j' (by simpa using hj)
        · intro hall j hj
          simpa using hall (j + 1) (by simpa using hj)

/-- C1: `PmGetStateWithCaps` scans the FSM states in ascending index order and
returns the lowest-index state whose capability mask is a superset of `caps`
(bitwise AND with `caps` equals `caps`); it returns `XST_PM_CONFLICT`
(modelled `none`) if and only if no state in the table is a superset. -/
theorem pmGetStateWithCaps_selects_lowest_superset (fsm : PmSlaveFsm) (caps : Nat) :
    (∀ i, PmGetStateWithCaps fsm caps = some i ↔
        i < fsm.states.length ∧ caps &&& stateCaps fsm i = caps ∧
          ∀ j, j < i → caps &&& stateCaps fsm j ≠ caps) ∧
    (PmGetStateWithCaps fsm caps = none ↔
        ∀ j, j < fsm.states.length → caps &&& stateCaps fsm j ≠ caps) :=
  ⟨fun i => findCapIdx_some_iff caps fsm.states i, findCapIdx_none_iff caps fsm.states⟩

/-- Evaluation of C1 at a concrete three-state table. -/
theorem pmGetStateWithCaps_selects_lowest_superset_witness :
    PmGetStateWithCaps ⟨[0, 8, 24], [], false⟩ 8 = some 1 :=
  ((pmGetStateWithCaps_selects_lowest_superset ⟨[0, 8, 24], [], false⟩ 8).1 1).mpr (by decide)

/-! Section: Capability aggregation (`PmGetMaxCapabilities`) -/

theorem foldl_or_active_eq_filter (l : List PmRequirement) (acc : Nat) :
    l.foldl (fun maxCaps r => if r.usingSlave then maxCaps ||| r.currReq else maxCaps) acc =
      (l.filter (fun r => r.usingSlave)).foldl (fun maxCaps r => maxCaps ||| r.currReq) acc := by
  induction l generalizing acc with
  | nil => rfl
  | cons r rest ih =>
      cases hr : r.usingSlave with
      | true => simp [List.filter_cons, hr, ih]
      | false => simp [List.filter_cons, hr, ih]

/-- C7: `PmGetMaxCapabilities` returns exactly the bitwise OR of the `currReq`
fields of the ledger entries whose currently-using flag is set; entries with
the flag cleared contribute nothing, and when no entry has the flag set the
result is zero. -/
theorem pmGetMaxCapabilities_or_of_active (slave : PmSlave) :
    PmGetMaxCapabilities slave =
      (slave.reqs.filter (fun r => r.usingSlave)).foldl (fun maxCaps r => maxCaps ||| r.currReq) 0 ∧
    ((∀ r ∈ slave.reqs, r.usingSlave = false) → PmGetMaxCapabilities slave = 0) := by
  constructor
  · exact foldl_or_active_eq_filter slave.reqs 0
  · intro hall
    unfold PmGetMaxCapabilities
    rw [foldl_or_active_eq_filter]
    have : slave.reqs.filter (fun r => r.usingSlave) = [] := by
      rw [List.filter_eq_nil_iff]
      intro r hr
      simp [hall r hr]
    rw [this]
    rfl

/-- Evaluation of C7 at a concrete slave with one inactive entry. -/
theorem pmGetMaxCapabilities_or_of_active_witness :
    PmGetMaxCapabilities
      { fsm := ⟨[0], [], false⟩, currState := 0,
        reqs := [{ usingSlave := false, setLatencyReq := false, currReq := 7, latencyReq := 0,
                   masterIpiMask := 1 }],
        hasParent := false, hasClocks := false, flags := 0, latencyMarg := 0 } = 0 :=
  (pmGetMaxCapabilities_or_of_active _).2 (by decide)

/-! Section: Wake-up latency query (`PmSlaveGetWakeUpLatency`) -/

/-- C10: when the power parent's class has no `getWakeUpLatency` method,
`PmSlaveGetWakeUpLatency` returns `XST_NO_FEATURE` with the caller's output
location already overwritten by the slave-only latency-from-current-state
value (the write happens before the method check). -/
theorem pmSlaveGetWakeUpLatency_writes_before_check (env : PmEnv) (slave : PmSlave)
    (h : env.parentGetWakeUpLatency = none) :
    PmSlaveGetWakeUpLatency env slave =
      (XST_NO_FEATURE, PmGetLatencyFromState slave.fsm slave.currState) := by
  unfold PmSlaveGetWakeUpLatency
  rw [h]

/-- Evaluation of C10 at a concrete environment with no parent method. -/
theorem pmSlaveGetWakeUpLatency_writes_before_check_witness :
    PmSlaveGetWakeUpLatency
      { powerRequestParentStatus := 0, clockRequestStatus := 0,
        enterStateStatus := fun _ => 0, powerUpdateLatencyStatus := 0,
        hasMasterWithIpiMask := fun _ => false, parentGetWakeUpLatency := none }
      { fsm := ⟨[0, 8], [⟨0, 1, 42⟩], false⟩, currState := 0, reqs := [],
        hasParent := true, hasClocks := false, flags := 0, latencyMarg := 0 } =
      (XST_NO_FEATURE, 42) := by
  rw [pmSlaveGetWakeUpLatency_writes_before_check _ _ rfl]
  decide

/-! Section: Characterization of the latency-constrained scan
(`PmConstrainStateByLatency`, `PmGetLatencyFromState`) -/

theorem constrainScan_some_iff (fsm : PmSlaveFsm) (caps ml : Nat) (fuel i k : Nat) :
    constrainScan fsm caps ml fuel i = some k ↔
      i ≤ k ∧ k < i + fuel ∧ constrainOk fsm caps ml k ∧
        ∀ j, j < k → i ≤ j → ¬ constrainOk fsm caps ml j := by
  induction fuel generalizing i with
  | zero =>
      simp only [constrainScan]
      constructor
      · intro hc
        exact absurd hc (by simp)
      · rintro ⟨h1, h2, _, _⟩
        omega
  | succ fuel ih =>
      by_cases h : constrainOk fsm caps ml i
      · simp only [constrainScan, if_pos h]
        constructor
        · intro hk
          have hik : i = k := Option.some.inj hk
          subst hik
          exact ⟨Nat.le_refl i, by omega, h, by omega⟩
        · rintro ⟨h1, h2, hok, hmin⟩
          by_cases hik : k = i
          · rw [hik]
          · exact absurd h (hmin i (by omega) (Nat.le_refl i))
      · simp only [constrainScan, if_neg h]
        rw [ih (i + 1)]
        constructor
        · rintro ⟨h1, h2, hok, hmin⟩
          refine ⟨by omega, by omega, hok, ?_⟩
          intro j hj hij
          by_cases hji : j = i
          · rw [hji]
            exact h
          · exact hmin j hj (by omega)
        · rintro ⟨h1, h2, hok, hmin⟩
          have hik : i ≠ k := by
            intro he
            exact h (he ▸ hok)
          exact ⟨by omega, by omega, hok, fun j hj hij => hmin j hj (by omega)⟩

theorem constrainScan_none_iff (fsm : PmSlaveFsm) (caps ml : Nat) (fuel i : Nat) :
    constrainScan fsm caps ml fuel i = none ↔
      ∀ j, j < i + fuel → i ≤ j → ¬ constrainOk fsm caps ml j := by
  induction fuel generalizing i with
  | zero =>
      simp only [constrainScan]
      constructor
      · intro _ j h1 h2
        omega
      · intro _
        trivial
  | succ fuel ih =>
      by_cases h : constrainOk fsm caps ml i
      · simp only [constrainScan, if_pos h]
        constructor
        · intro hc
          exact absurd hc (by simp)
        · intro hall
          exact absurd h (hall i (by omega) (Nat.le_refl i))
      · simp only [constrainScan, if_neg h]
        rw [ih (i + 1)]
        constructor
        · intro hall j h1 h2
          by_cases hji : j = i
          · rw [hji]
            exact h
          · exact hall j (by omega) (by omega)
        · intro hall j h1 h2
          exact hall j (by omega) (by omega)

theorem find?_eq_some_of_unique {α : Type} (p : α → Bool) (l : List α) (t : α)
    (hmem : t ∈ l) (hp : p t = true) (huniq : ∀ u ∈ l, p u = true → u = t) :
    l.find? p = some t := by
  induction l with
  | nil => cases hmem
  | cons x rest ih =>
      cases hx : p x with
      | true =>
          rw [List.find?_cons_of_pos _ hx]
          rw [huniq x (List.mem_cons_self x rest) hx]
      | false =>
          rw [List.find?_cons_of_neg _ (by simp [hx])]
          have hxt : x ≠ t := by
            intro he
            rw [he, hp] at hx
            cases hx
          have hmem' : t ∈ rest := by
            rcases List.mem_cons.mp hmem with he | hm
            · exact absurd he.symm hxt
            · exact hm
          exact ih hmem' (fun u hu hpu => huniq u (List.mem_cons_of_mem x hu) hpu)

theorem pmGetLatencyFromState_eq_zero (fsm : PmSlaveFsm) (s : Nat)
    (h : ∀ t ∈ fsm.trans, ¬(t.fromState = s ∧ t.toState = fsm.states.length - 1)) :
    PmGetLatencyFromState fsm s = 0 := by
  unfold PmGetLatencyFromState
  dsimp only
  have : fsm.trans.find?
      (fun t => t.fromState == s && t.toState == fsm.states.length - 1) = none := by
    rw [List.find?_eq_none]
    intro t ht
    have := h t ht
    simp only [Bool.and_eq_true, beq_iff_eq]
    tauto
  rw [this]

theorem pmGetLatencyFromState_eq_of_unique (fsm : PmSlaveFsm) (s : Nat) (t : PmTrans)
    (hmem : t ∈ fsm.trans) (hfrom : t.fromState = s) (hto : t.toState = fsm.states.length - 1)
    (huniq : ∀ u ∈ fsm.trans,
      u.fromState = s → u.toState = fsm.states.length - 1 → u = t) :
    PmGetLatencyFromState fsm s = t.latency := by
  unfold PmGetLatencyFromState
  dsimp only
  have : fsm.trans.find?
      (fun u => u.fromState == s && u.toState == fsm.states.length - 1) = some t := by
    apply find?_eq_some_of_unique _ _ t hmem
    · simp [hfrom, hto]
    · intro u hu hpu
      simp only [Bool.and_eq_true, beq_iff_eq] at hpu
      exact huniq u hu hpu.1 hpu.2
  rw [this]

/-- C3: `PmConstrainStateByLatency` returns the first state with index at
least `start` (scanning ascending) whose capability mask is a superset of
`caps` and whose latency-from-state is at most `ml`, and returns
`XST_PM_CONFLICT` (modelled `none`) iff no state from `start` up to the
highest state satisfies both; moreover `PmGetLatencyFromState` is the latency
of the single transition from the state to the highest-index state, or zero
when no such transition exists. -/
theorem pmConstrainStateByLatency_characterization (fsm : PmSlaveFsm) (start caps ml : Nat)
    (hstart : start ≤ fsm.states.length) :
    (∀ k, PmConstrainStateByLatency fsm start caps ml = some k ↔
        start ≤ k ∧ k < fsm.states.length ∧
          (caps &&& stateCaps fsm k = caps ∧ PmGetLatencyFromState fsm k ≤ ml) ∧
          ∀ j, j < k → start ≤ j →
            ¬(caps &&& stateCaps fsm j = caps ∧ PmGetLatencyFromState fsm j ≤ ml)) ∧
    (PmConstrainStateByLatency fsm start caps ml = none ↔
        ∀ j, j < fsm.states.length → start ≤ j →
          ¬(caps &&& stateCaps fsm j = caps ∧ PmGetLatencyFromState fsm j ≤ ml)) ∧
    (∀ s, (∀ t ∈ fsm.trans, ¬(t.fromState = s ∧ t.toState = fsm.states.length - 1)) →
        PmGetLatencyFromState fsm s = 0) ∧
    (∀ s t, t ∈ fsm.trans → t.fromState = s → t.toState = fsm.states.length - 1 →
        (∀ u ∈ fsm.trans, u.fromState = s → u.toState = fsm.states.length - 1 → u = t) →
        PmGetLatencyFromState fsm s = t.latency) := by
  have hfull : start + (fsm.states.length - start) = fsm.states.length := by omega
  refine ⟨?_, ?_, pmGetLatencyFromState_eq_zero fsm, pmGetLatencyFromState_eq_of_unique fsm⟩
  · intro k
    unfold PmConstrainStateByLatency
    rw [constrainScan_some_iff, hfull]
    unfold constrainOk
    tauto
  · unfold PmConstrainStateByLatency
    rw [constrainScan_none_iff, hfull]
    unfold constrainOk
    constructor
    · intro hall j h1 h2
      exact hall j h1 h2
    · intro hall j h1 h2
      exact hall j h1 h2

/-- Evaluation of C3 at a concrete table: state 0 lacks the capability,
state 1 has it with latency 10 within the bound 20. -/
theorem pmConstrainStateByLatency_characterization_witness :
    PmConstrainStateByLatency ⟨[0, 8, 24], [⟨0, 2, 50⟩, ⟨1, 2, 10⟩], false⟩ 0 8 20 = some 1 :=
  ((pmConstrainStateByLatency_characterization ⟨[0, 8, 24], [⟨0, 2, 50⟩, ⟨1, 2, 10⟩], false⟩
      0 8 20 (by decide)).1 1).mpr (by decide)

/-! Section: Transition executor (`PmSlaveChangeState`): abort behaviour -/

theorem prepareState_trace_props (env : PmEnv) (slv : PmSlave) (next : Nat) :
    Effect.releaseClock ∉ (PmSlavePrepareState env slv next).2 ∧
    Effect.releaseParent ∉ (PmSlavePrepareState env slv next).2 ∧
    (Effect.requestParent false ∈ (PmSlavePrepareState env slv next).2 →
      (PmSlavePrepareState env slv next).2 = [Effect.requestParent false]) ∧
    (Effect.requestClock false ∈ (PmSlavePrepareState env slv next).2 →
      Effect.requestClock true ∉ (PmSlavePrepareState env slv next).2) := by
  unfold PmSlavePrepareState
  dsimp only
  split_ifs <;> simp

theorem changeState_failure_eq (env : PmEnv) (slave : PmSlave) (state : Nat)
    (h : (PmSlaveChangeState env slave state).1 ≠ XST_SUCCESS) :
    (PmSlaveChangeState env slave state).2.1 = slave ∧
    (PmSlaveChangeState env slave state).2.2 = (PmSlavePrepareState env slave state).2 := by
  unfold PmSlaveChangeState at *
  dsimp only at h ⊢
  by_cases hp : (PmSlavePrepareState env slave state).1 != XST_SUCCESS
  · rw [if_pos hp] at h ⊢
    exact ⟨rfl, rfl⟩
  · rw [if_neg hp] at h ⊢
    set status :=
      (if slave.fsm.trans.length = 0 then XST_SUCCESS
       else
        match findTrans slave.fsm slave.currState state with
        | some _ => if slave.fsm.hasEnterState then env.enterStateStatus state else XST_SUCCESS
        | none => XST_FAILURE) with hst
    by_cases hc : (slave.currState != state && status == XST_SUCCESS) = true
    · rw [if_pos hc] at h
      have : status = XST_SUCCESS := by
        have := (Bool.and_eq_true _ _).mp hc
        exact beq_iff_eq.mp this.2
      exact absurd this h
    · rw [if_neg hc] at h ⊢
      exact ⟨rfl, rfl⟩

/-- C4: if the Prepare phase of `PmSlaveChangeState` fails, or the Apply phase
fails (no matching transition entry, or the transition action fails), the
slave — its current state and its requirement ledger included — is unchanged
and no Settle-phase clock/power release is performed. -/
theorem pmSlaveChangeState_failure_atomic (env : PmEnv) (slave : PmSlave) (state : Nat)
    (h : (PmSlaveChangeState env slave state).1 ≠ XST_SUCCESS) :
    (PmSlaveChangeState env slave state).2.1 = slave ∧
    Effect.releaseClock ∉ (PmSlaveChangeState env slave state).2.2 ∧
    Effect.releaseParent ∉ (PmSlaveChangeState env slave state).2.2 := by
  obtain ⟨hslv, htr⟩ := changeState_failure_eq env slave state h
  obtain ⟨hrc, hrp, -, -⟩ := prepareState_trace_props env slave state
  rw [htr]
  exact ⟨hslv, hrc, hrp⟩

/-- Shared concrete example: a slave with a power parent and clocks, whose
state 1 newly needs both `PM_CAP_POWER` and `PM_CAP_CLOCK`. -/
def exSlvPC : PmSlave :=
  { fsm := { states := [0, 24], trans := [⟨0, 1, 0⟩], hasEnterState := false },
    currState := 0, reqs := [], hasParent := true, hasClocks := true, flags := 0,
    latencyMarg := 0 }

/-- Shared concrete example: every external call succeeds. -/
def exEnvOk : PmEnv :=
  { powerRequestParentStatus := 0, clockRequestStatus := 0,
    enterStateStatus := fun _ => 0, powerUpdateLatencyStatus := 0,
    hasMasterWithIpiMask := fun _ => false, parentGetWakeUpLatency := none }

/-- Shared concrete example: the power-parent request fails. -/
def exEnvPowerFail : PmEnv :=
  { powerRequestParentStatus := 1, clockRequestStatus := 0,
    enterStateStatus := fun _ => 0, powerUpdateLatencyStatus := 0,
    hasMasterWithIpiMask := fun _ => false, parentGetWakeUpLatency := none }

/-- Shared concrete example: the clock request fails after the power-parent
request succeeded. -/
def exEnvClockFail : PmEnv :=
  { powerRequestParentStatus := 0, clockRequestStatus := 1,
    enterStateStatus := fun _ => 0, powerUpdateLatencyStatus := 0,
    hasMasterWithIpiMask := fun _ => false, parentGetWakeUpLatency := none }

/-- Evaluation of C4 at a concrete failing Prepare (power request denied). -/
theorem pmSlaveChangeState_failure_atomic_witness :
    (PmSlaveChangeState exEnvPowerFail exSlvPC 1).2.1 = exSlvPC ∧
    Effect.releaseClock ∉ (PmSlaveChangeState exEnvPowerFail exSlvPC 1).2.2 ∧
    Effect.releaseParent ∉ (PmSlaveChangeState exEnvPowerFail exSlvPC 1).2.2 :=
  pmSlaveChangeState_failure_atomic exEnvPowerFail exSlvPC 1 (by decide)

/-- C5 counterexample: a transition aborted by a failed clock request has a
successful power-parent acquisition in its trace that is never released —
refuting the claim that an aborted Prepare leaves no unreleased
acquisition. -/
theorem prepare_abort_leaks_parent_acquisition :
    (PmSlaveChangeState exEnvClockFail exSlvPC 1).1 ≠ XST_SUCCESS ∧
    Effect.requestParent true ∈ (PmSlaveChangeState exEnvClockFail exSlvPC 1).2.2 ∧
    Effect.releaseParent ∉ (PmSlaveChangeState exEnvClockFail exSlvPC 1).2.2 := by
  decide

/-- C5 as amended: a failed acquisition call itself acquires nothing (a failed
power-parent request means nothing at all was acquired, a failed clock request
means no clock was acquired), but an aborted transition performs no release,
so acquisitions made before the failure point stay unreleased. -/
theorem pmSlaveChangeState_abort_acquisitions (env : PmEnv) (slave : PmSlave) (state : Nat)
    (h : (PmSlaveChangeState env slave state).1 ≠ XST_SUCCESS) :
    Effect.releaseClock ∉ (PmSlaveChangeState env slave state).2.2 ∧
    Effect.releaseParent ∉ (PmSlaveChangeState env slave state).2.2 ∧
    (Effect.requestParent false ∈ (PmSlaveChangeState env slave state).2.2 →
      Effect.requestParent true ∉ (PmSlaveChangeState env slave state).2.2 ∧
      Effect.requestClock true ∉ (PmSlaveChangeState env slave state).2.2) ∧
    (Effect.requestClock false ∈ (PmSlaveChangeState env slave state).2.2 →
      Effect.requestClock true ∉ (PmSlaveChangeState env slave state).2.2) := by
  obtain ⟨-, htr⟩ := changeState_failure_eq env slave state h
  obtain ⟨hrc, hrp, hpf, hcf⟩ := prepareState_trace_props env slave state
  rw [htr]
  refine ⟨hrc, hrp, ?_, hcf⟩
  intro hmem
  rw [hpf hmem]
  exact ⟨by simp, by simp⟩

/-- Evaluation of amended C5 at the concrete aborted transition. -/
theorem pmSlaveChangeState_abort_acquisitions_witness :
    Effect.releaseClock ∉ (PmSlaveChangeState exEnvClockFail exSlvPC 1).2.2 ∧
    Effect.releaseParent ∉ (PmSlaveChangeState exEnvClockFail exSlvPC 1).2.2 ∧
    (Effect.requestParent false ∈ (PmSlaveChangeState exEnvClockFail exSlvPC 1).2.2 →
      Effect.requestParent true ∉ (PmSlaveChangeState exEnvClockFail exSlvPC 1).2.2 ∧
      Effect.requestClock true ∉ (PmSlaveChangeState exEnvClockFail exSlvPC 1).2.2) ∧
    (Effect.requestClock false ∈ (PmSlaveChangeState exEnvClockFail exSlvPC 1).2.2 →
      Effect.requestClock true ∉ (PmSlaveChangeState exEnvClockFail exSlvPC 1).2.2) :=
  pmSlaveChangeState_abort_acquisitions exEnvClockFail exSlvPC 1 (by decide)

/-! Section: Reconciliation (`PmUpdateSlave`): zero-capability selection and
latency margin -/

/-- Concrete slave refuting C2: no requirement is using the slave (so
aggregated capabilities are zero), one requirement sets latency bound 2, and
the transition from state 0 to the highest state costs 50. -/
def exSlvZeroCaps : PmSlave :=
  { fsm := { states := [0, 0], trans := [⟨0, 1, 50⟩], hasEnterState := false },
    currState := 0,
    reqs := [{ usingSlave := false, setLatencyReq := true, currReq := 0, latencyReq := 2,
               masterIpiMask := 1 }],
    hasParent := false, hasClocks := false, flags := 0, latencyMarg := 0 }

/-- C2 counterexample: with aggregated capabilities zero, `PmUpdateSlave`
still applies the latency constraint and resolves to state 1 (escalating past
state 0), and the pass succeeds, leaving the slave in state 1. -/
theorem updateSlave_zero_caps_escalates :
    PmGetMaxCapabilities exSlvZeroCaps = 0 ∧
    (PmResolveState exSlvZeroCaps).map (fun r => r.1) = some 1 ∧
    (PmUpdateSlave exEnvOk exSlvZeroCaps).1 = XST_SUCCESS ∧
    (PmUpdateSlave exEnvOk exSlvZeroCaps).2.1.currState = 1 := by
  decide

/-- C2 as amended: when the aggregated capabilities are zero the pass starts
from state 0 without a scan, but the latency constraint still applies: the
pass resolves to state 0 if and only if state 0's latency-from-state is
within the aggregated latency bound. -/
theorem updateSlave_zero_caps_state0_iff (slave : PmSlave)
    (hcaps : PmGetMaxCapabilities slave = 0) :
    ((PmResolveState slave).map (fun r => r.1) = some 0 ↔
      PmGetLatencyFromState slave.fsm 0 ≤ PmGetMinRequestedLatency slave) := by
  unfold PmResolveState
  dsimp only
  rw [hcaps]
  rw [if_neg (by omega : ¬(0 : Nat) ≠ 0)]
  dsimp only
  by_cases hlt : PmGetLatencyFromState slave.fsm 0 ≤ PmGetMinRequestedLatency slave
  · rw [if_neg (by omega : ¬PmGetLatencyFromState slave.fsm 0 > PmGetMinRequestedLatency slave)]
    simp [hlt]
  · rw [if_pos (by omega : PmGetLatencyFromState slave.fsm 0 > PmGetMinRequestedLatency slave)]
    rcases hc : PmConstrainStateByLatency slave.fsm 0 0 (PmGetMinRequestedLatency slave)
      with - | st1
    · simp [hlt]
    · have hok := ((constrainScan_some_iff slave.fsm 0 (PmGetMinRequestedLatency slave)
        (slave.fsm.states.length - 0) 0 st1).mp hc).2.2.1
      simp only [Option.map_some', Option.some.injEq]
      constructor
      · intro heq
        exfalso
        rw [heq] at hok
        exact hlt hok.2
      · intro hr
        exact absurd hr hlt

/-- Evaluation of amended C2 at a concrete zero-capability slave whose state 0
latency is within the (sentinel) bound. -/
theorem updateSlave_zero_caps_state0_iff_witness :
    (PmResolveState
        { fsm := ⟨[0], [], false⟩, currState := 0, reqs := [],
          hasParent := false, hasClocks := false, flags := 0, latencyMarg := 0 }).map
      (fun r => r.1) = some 0 :=
  (updateSlave_zero_caps_state0_iff _ (by decide)).mpr (by decide)

theorem foldl_min_le (l : List PmRequirement) (acc : Nat) :
    l.foldl
      (fun minLatency r =>
        if r.setLatencyReq then
          if r.latencyReq < minLatency then r.latencyReq else minLatency
        else minLatency)
      acc ≤ acc := by
  induction l generalizing acc with
  | nil => exact Nat.le_refl acc
  | cons r rest ih =>
      refine Nat.le_trans (ih _) ?_
      dsimp only
      split_ifs <;> omega

theorem pmGetMinRequestedLatency_le_max (slave : PmSlave) :
    PmGetMinRequestedLatency slave ≤ MAX_LATENCY :=
  foldl_min_le slave.reqs MAX_LATENCY

theorem resolve_some_inv (slave : PmSlave) (st wk ml : Nat)
    (h : PmResolveState slave = some (st, wk, ml)) :
    wk ≤ ml ∧ ml = PmGetMinRequestedLatency slave ∧
      wk = PmGetLatencyFromState slave.fsm st := by
  unfold PmResolveState at h
  dsimp only at h
  rcases hst : (if PmGetMaxCapabilities slave ≠ 0 then
      PmGetStateWithCaps slave.fsm (PmGetMaxCapabilities slave) else some 0) with - | st0
  · rw [hst] at h
    cases h
  · rw [hst] at h
    dsimp only at h
    by_cases hgt : PmGetLatencyFromState slave.fsm st0 > PmGetMinRequestedLatency slave
    · rw [if_pos hgt] at h
      rcases hc : PmConstrainStateByLatency slave.fsm st0 (PmGetMaxCapabilities slave)
          (PmGetMinRequestedLatency slave) with - | st1
      · rw [hc] at h
        cases h
      · rw [hc] at h
        have hok := ((constrainScan_some_iff slave.fsm (PmGetMaxCapabilities slave)
            (PmGetMinRequestedLatency slave) (slave.fsm.states.length - st0) st0 st1).mp hc).2.2.1
        simp only [Option.some.injEq, Prod.mk.injEq] at h
        obtain ⟨h1, h2, h3⟩ := h
        subst h1
        rw [← h2, ← h3]
        exact ⟨hok.2, rfl, rfl⟩
    · rw [if_neg hgt] at h
      simp only [Option.some.injEq, Prod.mk.injEq] at h
      obtain ⟨h1, h2, h3⟩ := h
      subst h1
      rw [← h2, ← h3]
      exact ⟨by omega, rfl, rfl⟩

theorem changeState_latencyMarg (env : PmEnv) (s : PmSlave) (t : Nat) :
    (PmSlaveChangeState env s t).2.1.latencyMarg = s.latencyMarg := by
  unfold PmSlaveChangeState
  dsimp only
  split_ifs <;> rfl

/-- C6: on every path of `PmUpdateSlave` that reaches the `latencyMarg`
assignment (i.e. whenever the resolution succeeds with resolved state `st`,
wake latency `wk` and aggregated bound `ml`), the wake latency does not
exceed the bound — including when the bound is the `MAX_LATENCY` sentinel —
so the recorded margin equals `ml - wk` as exact arithmetic, without 32-bit
wrap-around. -/
theorem updateSlave_latency_margin_exact (slave : PmSlave) (st wk ml : Nat)
    (h : PmResolveState slave = some (st, wk, ml)) :
    wk ≤ ml ∧ u32sub ml wk = ml - wk ∧
      ∀ env, ((PmUpdateSlave env slave).2.1).latencyMarg = ml - wk := by
  obtain ⟨hwk, hml, -⟩ := resolve_some_inv slave st wk ml h
  have hle : ml ≤ MAX_LATENCY := hml ▸ pmGetMinRequestedLatency_le_max slave
  unfold MAX_LATENCY at hle
  have hsub : u32sub ml wk = ml - wk := by
    unfold u32sub
    have hwk32 : wk % 2 ^ 32 = wk := Nat.mod_eq_of_lt (by omega)
    rw [hwk32]
    have harr : ml + (2 ^ 32 - wk) = (ml - wk) + 2 ^ 32 := by omega
    rw [harr, Nat.add_mod_right]
    exact Nat.mod_eq_of_lt (by omega)
  refine ⟨hwk, hsub, fun env => ?_⟩
  unfold PmUpdateSlave
  rw [h]
  dsimp only
  by_cases hne : (st != slave.currState) = true
  · rw [if_pos hne, changeState_latencyMarg]
    exact hsub
  · rw [if_neg hne]
    split_ifs <;> exact hsub

/-- Evaluation of C6 at a concrete slave resolving with the sentinel bound. -/
theorem updateSlave_latency_margin_exact_witness :
    u32sub MAX_LATENCY 0 = MAX_LATENCY - 0 ∧
    ((PmUpdateSlave exEnvOk
        { fsm := ⟨[0], [], false⟩, currState := 0, reqs := [],
          hasParent := false, hasClocks := false, flags := 0, latencyMarg := 0 }).2.1).latencyMarg =
      MAX_LATENCY - 0 := by
  have h := updateSlave_latency_margin_exact
    { fsm := ⟨[0], [], false⟩, currState := 0, reqs := [],
      hasParent := false, hasClocks := false, flags := 0, latencyMarg := 0 }
    0 0 MAX_LATENCY (by decide)
  exact ⟨h.2.1, h.2.2 exEnvOk⟩

/-! Section: Force down (`PmSlaveForceDown`) -/

theorem changeState_reqs (env : PmEnv) (s : PmSlave) (t : Nat) :
    (PmSlaveChangeState env s t).2.1.reqs = s.reqs := by
  unfold PmSlaveChangeState
  dsimp only
  split_ifs <;> rfl

theorem foldl_usersMask_inactive (l : List PmRequirement) (acc : Nat)
    (h : ∀ r ∈ l, r.usingSlave = false) :
    l.foldl (fun usage r => if r.usingSlave then usage ||| r.masterIpiMask else usage) acc =
      acc := by
  induction l generalizing acc with
  | nil => rfl
  | cons r rest ih =>
      have hr : r.usingSlave = false := h r (List.mem_cons_self r rest)
      simp only [List.foldl_cons, hr, if_false, Bool.false_eq_true]
      exact ih acc (fun r' hr' => h r' (List.mem_cons_of_mem r hr'))

/-- C8: `PmSlaveForceDown` deactivates every ledger entry whose
currently-using flag is set (so every entry of the result is inactive and
`PmSlaveGetUsersMask` afterwards is zero, whatever the transition outcome),
performs no transition when the current state is already 0, and otherwise is
exactly a `PmSlaveChangeState` to state 0 on the cleared slave — whose error,
if any, it returns. -/
theorem pmSlaveForceDown_spec (env : PmEnv) (slave : PmSlave) :
    (∀ r ∈ (PmSlaveForceDown env slave).2.1.reqs, r.usingSlave = false) ∧
    PmSlaveGetUsersMask (PmSlaveForceDown env slave).2.1 = 0 ∧
    (slave.currState = 0 →
      PmSlaveForceDown env slave =
        (XST_SUCCESS,
         { slave with
            reqs := slave.reqs.map (fun r => if r.usingSlave then PmRequirementClear r else r) },
         [])) ∧
    (slave.currState ≠ 0 →
      PmSlaveForceDown env slave =
        PmSlaveChangeState env
          { slave with
             reqs := slave.reqs.map (fun r => if r.usingSlave then PmRequirementClear r else r) }
          0) := by
  have hreqs : (PmSlaveForceDown env slave).2.1.reqs =
      slave.reqs.map (fun r => if r.usingSlave then PmRequirementClear r else r) := by
    unfold PmSlaveForceDown
    dsimp only
    split_ifs
    · rw [changeState_reqs]
    · rfl
  have hall : ∀ r ∈ (PmSlaveForceDown env slave).2.1.reqs, r.usingSlave = false := by
    rw [hreqs]
    intro r hr
    rcases List.mem_map.mp hr with ⟨r0, _, heq⟩
    cases hu : r0.usingSlave
    · rw [← heq, if_neg (by simp [hu])]
      exact hu
    · rw [← heq, if_pos hu]
      rfl
  refine ⟨hall, ?_, ?_, ?_⟩
  · unfold PmSlaveGetUsersMask
    exact foldl_usersMask_inactive _ 0 hall
  · intro h0
    unfold PmSlaveForceDown
    dsimp only
    rw [if_neg (by simp [h0])]
  · intro hne
    unfold PmSlaveForceDown
    dsimp only
    rw [if_pos (by simpa using hne)]

/-- Shared concrete example: slave in state 2 with two active requesters. -/
def exSlvTwoUsers : PmSlave :=
  { fsm := { states := [0, 8, 24], trans := [⟨2, 0, 5⟩, ⟨0, 2, 7⟩], hasEnterState := false },
    currState := 2,
    reqs := [{ usingSlave := true, setLatencyReq := false, currReq := 8, latencyReq := 0,
               masterIpiMask := 1 },
             { usingSlave := true, setLatencyReq := false, currReq := 24, latencyReq := 0,
               masterIpiMask := 2 }],
    hasParent := true, hasClocks := true, flags := 0, latencyMarg := 0 }

/-- Evaluation of C8 at the two-user slave in state 2. -/
theorem pmSlaveForceDown_spec_witness :
    PmSlaveGetUsersMask (PmSlaveForceDown exEnvOk exSlvTwoUsers).2.1 = 0 ∧
    PmSlaveForceDown exEnvOk exSlvTwoUsers =
      PmSlaveChangeState exEnvOk
        { exSlvTwoUsers with
           reqs := exSlvTwoUsers.reqs.map
             (fun r => if r.usingSlave then PmRequirementClear r else r) }
        0 :=
  ⟨(pmSlaveForceDown_spec exEnvOk exSlvTwoUsers).2.1,
   (pmSlaveForceDown_spec exEnvOk exSlvTwoUsers).2.2.2 (by decide)⟩

/-! Section: Configuration (`PmSlaveSetConfig`) -/

theorem requirementAdd_reqs_extend (slave : PmSlave) (ipi : Nat) :
    ∃ l, (PmRequirementAdd slave ipi).reqs = slave.reqs ++ l := by
  unfold PmRequirementAdd
  split_ifs
  · exact ⟨[], (List.append_nil _).symm⟩
  · exact ⟨_, rfl⟩

theorem setConfigLoop_inv (env : PmEnv) :
    ∀ (cnt : Nat) (slave : PmSlave) (masks : Nat),
      ((setConfigLoop env cnt slave masks).1 = XST_SUCCESS ∨
        (setConfigLoop env cnt slave masks).1 = XST_FAILURE) ∧
      ∃ l, (setConfigLoop env cnt slave masks).2.reqs = slave.reqs ++ l := by
  intro cnt
  induction cnt with
  | zero =>
      intro slave masks
      exact ⟨Or.inl rfl, ⟨[], (List.append_nil _).symm⟩⟩
  | succ n ih =>
      intro slave masks
      unfold setConfigLoop
      dsimp only
      split_ifs with hm
      · obtain ⟨hst, l1, hl1⟩ := ih (PmRequirementAdd slave (2 ^ ctz32 masks))
          (masks - 2 ^ ctz32 masks)
        obtain ⟨l0, hl0⟩ := requirementAdd_reqs_extend slave (2 ^ ctz32 masks)
        exact ⟨hst, ⟨l0 ++ l1, by rw [hl1, hl0, List.append_assoc]⟩⟩
      · exact ⟨Or.inr rfl, ⟨[], (List.append_nil _).symm⟩⟩

/-- Shared concrete example: a slave with no bindings at all. -/
def exSlvNoReqs : PmSlave :=
  { fsm := { states := [0], trans := [], hasEnterState := false },
    currState := 0, reqs := [], hasParent := false, hasClocks := false, flags := 0,
    latencyMarg := 0 }

/-- Shared concrete example: only the master with ipi mask 1 exists. -/
def exEnvOneMaster : PmEnv :=
  { powerRequestParentStatus := 0, clockRequestStatus := 0,
    enterStateStatus := fun _ => 0, powerUpdateLatencyStatus := 0,
    hasMasterWithIpiMask := fun m => m == 1, parentGetWakeUpLatency := none }

/-- C9 counterexample: configuring with permission masks `0b11` when only the
master with mask 1 exists fails (`XST_FAILURE`), yet the binding created for
master 1 earlier in the same call remains live — refuting "no partial binding
left live". -/
theorem setConfig_partial_binding_counterexample :
    (PmSlaveSetConfig exEnvOneMaster exSlvNoReqs 0 3).1 = XST_FAILURE ∧
    (PmSlaveSetConfig exEnvOneMaster exSlvNoReqs 0 3).2.reqs ≠ [] ∧
    ∃ r ∈ (PmSlaveSetConfig exEnvOneMaster exSlvNoReqs 0 3).2.reqs, r.masterIpiMask = 1 := by
  decide

/-- C9 as amended: when some permission mask does not resolve to a known
master, `PmSlaveSetConfig` stops at the first such mask and propagates
`XST_FAILURE`, but it does not roll back: the ledger only grows, so bindings
created for masks processed earlier in the same call remain live. -/
theorem pmSlaveSetConfig_failure_keeps_bindings (env : PmEnv) (slave : PmSlave)
    (policy perms : Nat)
    (h : (PmSlaveSetConfig env slave policy perms).1 ≠ XST_SUCCESS) :
    (PmSlaveSetConfig env slave policy perms).1 = XST_FAILURE ∧
    ∃ l, (PmSlaveSetConfig env slave policy perms).2.reqs = slave.reqs ++ l := by
  unfold PmSlaveSetConfig at h ⊢
  dsimp only at h ⊢
  set slave1 :=
    (if policy &&& PM_SLAVE_FLAG_IS_SHAREABLE ≠ 0 then
      { slave with flags := slave.flags ||| PM_SLAVE_FLAG_IS_SHAREABLE }
    else slave) with h1
  have h1reqs : slave1.reqs = slave.reqs := by
    rw [h1]
    split_ifs <;> rfl
  obtain ⟨hst, l, hl⟩ := setConfigLoop_inv env (popcount32 perms) slave1 perms
  rcases hst with hs | hf
  · exact absurd hs h
  · exact ⟨hf, ⟨l, by rw [hl, h1reqs]⟩⟩

/-- Evaluation of amended C9: no master exists, so binding mask 1 fails with
the ledger unchanged. -/
theorem pmSlaveSetConfig_failure_keeps_bindings_witness :
    (PmSlaveSetConfig exEnvOk exSlvNoReqs 0 1).1 = XST_FAILURE ∧
    ∃ l, (PmSlaveSetConfig exEnvOk exSlvNoReqs 0 1).2.reqs = exSlvNoReqs.reqs ++ l :=
  pmSlaveSetConfig_failure_keeps_bindings exEnvOk exSlvNoReqs 0 1 (by decide)

end PmSlaveC
